import Mathlib

/-!
Shallow embedding of `src/anc/stim_src_v1.3/src/arg_parse.cc`, a command-line
argument parsing and validation library.  C strings are modelled as `List Char`
(NUL-free character data); the argument vector is a `List CStr` whose head is
the program name.  Fatal error paths (`fprintf(stderr, ...) + exit(EXIT_FAILURE)`)
are modelled as `Except ArgError` results whose error payload records what the
diagnostic prints (flag name, offending value, bounds, known-name lists, mode
label).  C `int` and `long` are modelled as `Int`, with the `strtol` clamp to
the 64-bit `long` range made explicit.  C `float` values are modelled by
`CFloat` (an exact rational or NaN) with IEEE-style comparisons in which every
comparison against NaN is false; `strtof` rounding is not modelled (values
parse to exact rationals), which no theorem below depends on.
-/

/-- A C string: NUL-free character data. -/
abbrev CStr := List Char

/-- The literal `"--"` token that terminates flag scanning. -/
def dashDash : CStr := ['-', '-']

/-- restAfter name tok returns `some r` exactly when `tok = name ++ r`, i.e.
when `tok` starts with `name`; `r` is the remainder after the name.  This is
what `strstr(argv[i], name) == argv[i]` tests in the C code (the first
occurrence of `name` in `tok` is at the start iff `tok` starts with `name`). -/
def restAfter : CStr → CStr → Option CStr
  | [], tok => some tok
  | _ :: _, [] => none
  | c :: cs, d :: ds => if c = d then restAfter cs ds else none

/-- How a token relates to a flag name under the test
`loc == argv[i] && (loc[n] == '\0' || loc[n] == '=')` of the C code. -/
inductive MatchKind where
  | bare : MatchKind
  | inline (v : CStr) : MatchKind
  | noMatch : MatchKind
deriving DecidableEq

/-- matchKind name tok classifies a token against a flag name: `bare` when
`tok = name`, `inline v` when `tok = name ++ "=" ++ v`, `noMatch` otherwise,
mirroring the `strstr`-at-start test plus the character at position
`name.length` being `'\0'` or `'='`. -/
def matchKind (name tok : CStr) : MatchKind :=
  match restAfter name tok with
  | some [] => .bare
  | some (c :: v) => if c = '=' then .inline v else .noMatch
  | none => .noMatch

/-- matchTok name tok is true when the token matches the flag name at all
(bare or inline). -/
def matchTok (name tok : CStr) : Bool :=
  match matchKind name tok with
  | .noMatch => false
  | _ => true

/-- Boolean guard used for the flag-terminator boundary. -/
def nonBoundary (t : CStr) : Bool := !(t == dashDash)

/-- nextTokenValue rest is what a bare flag match yields given the remaining
tokens `rest`: the empty string when the flag is the last token of the whole
vector (`i == argc - 1`) or the following token begins with `'-'`
(`argv[i + 1][0] == '-'`), and the following token itself otherwise. -/
def nextTokenValue (rest : List CStr) : CStr :=
  match rest with
  | [] => []
  | next :: _ => if next.head? = some '-' then [] else next

/-- findArgAux name l scans the tokens after the program name, mirroring the
loop of `find_argument` in `arg_parse.cc` lines 30-65: stop at `"--"`; on the
first matching token, a bare match followed by nothing or by a `'-'`-initial
token yields the empty string, an inline match yields the text after `'='`,
and otherwise the next token is the value. -/
def findArgAux (name : CStr) : List CStr → Option CStr
  | [] => none
  | tok :: rest =>
    if tok = dashDash then none
    else
      match matchKind name tok with
      | .bare => some (nextTokenValue rest)
      | .inline v => some v
      | .noMatch => findArgAux name rest

/-- find_argument from `arg_parse.cc` lines 30-65: `none` models the NULL
"not found" return; `some v` models a returned C string `v`. -/
def find_argument (name : CStr) (argv : List CStr) : Option CStr :=
  findArgAux name (argv.drop 1)

/-- The tokens at indices `[1, boundary)` of the argument vector: everything
after the program name and before the first `"--"` token. -/
def flagRegion (argv : List CStr) : List CStr :=
  (argv.drop 1).takeWhile nonBoundary

/-- The index of the first literal `"--"` token (at index ≥ 1), or the vector
length if there is none; always at least 1, like `flag_count` in the C code. -/
def flagBoundary (argv : List CStr) : Nat :=
  1 + (flagRegion argv).length

/-- A float value as observed by the comparisons in `arg_parse.cc`: either NaN
or an exact rational.  Infinities and signed zero are not distinguished; no
theorem below depends on them. -/
inductive CFloat where
  | nan : CFloat
  | val (q : ℚ) : CFloat
deriving DecidableEq

/-- IEEE-style `<` on floats: false whenever either side is NaN. -/
def CFloat.blt : CFloat → CFloat → Bool
  | .val a, .val b => decide (a < b)
  | _, _ => false

/-- IEEE-style `≤` on floats: false whenever either side is NaN. -/
def CFloat.ble : CFloat → CFloat → Bool
  | .val a, .val b => decide (a ≤ b)
  | _, _ => false

/-- The self-inequality NaN test: in IEEE arithmetic `f != f` holds exactly
when `f` is NaN. -/
def CFloat.selfNe : CFloat → Bool
  | .nan => true
  | .val _ => false

/-- Error outcomes of the fatal diagnostic-and-exit paths of `arg_parse.cc`.
Payloads record what each diagnostic prints. -/
inductive ArgError where
  | MissingArgument (name : CStr)
  | InvalidBooleanValue (value name : CStr)
  | MissingRequiredValue (name : CStr)
  | InvalidIntegerValue (value name : CStr)
  | IntegerOutOfRange (value name : CStr) (min_value actual max_value : Int)
  | InvalidFloatValue (value name : CStr)
  | FloatOutOfRange (value name : CStr) (min_value actual max_value : CFloat)
  | UnrecognizedArgument (token : CStr) (for_mode : Option CStr) (known : List CStr)
  | UnrecognizedEnumValue (value name : CStr) (known : List CStr) (default_index : Int)
deriving DecidableEq

deriving instance DecidableEq for Except

/-- require_find_argument from `arg_parse.cc` lines 21-28. -/
def require_find_argument (name : CStr) (argv : List CStr) : Except ArgError CStr :=
  match find_argument name argv with
  | none => .error (.MissingArgument name)
  | some t => .ok t

/-- C-locale `isspace`: space, tab, newline, vertical tab, form feed,
carriage return. -/
def isSpaceC (c : Char) : Bool :=
  c = ' ' || c = '\t' || c = '\n' || c = Char.ofNat 11 || c = Char.ofNat 12 || c = '\r'

/-- Value of a (non-empty) run of decimal digits. -/
def digitsToNat (l : List Char) : Nat :=
  l.foldl (fun a c => a * 10 + (c.toNat - '0'.toNat)) 0

/-- LONG_MAX on the 64-bit platforms the program targets, 2 ^ 63 - 1. -/
def longMax : Int := 9223372036854775807

/-- LONG_MIN on the 64-bit platforms the program targets, -(2 ^ 63). -/
def longMin : Int := -9223372036854775808

/-- Clamp to the representable range of `long`, as `strtol` does on overflow. -/
def clampLong (v : Int) : Int := max longMin (min longMax v)

/-- Modelled from C `strtol(text, &processed, 10)` before overflow clamping:
skip C whitespace, read an optional single sign, then a run of decimal digits.
Returns the (unclamped) value and the unconsumed remainder; if no digits are
consumed ("no conversion"), returns 0 with the whole input as remainder, so
`processed == text`. -/
def strtolRaw (s : List Char) : Int × List Char :=
  let t := s.dropWhile isSpaceC
  let sign : Int := match t with | '-' :: _ => -1 | _ => 1
  let t2 := match t with | '-' :: r => r | '+' :: r => r | _ => t
  let digs := t2.takeWhile Char.isDigit
  if digs = [] then (0, s)
  else (sign * digitsToNat digs, t2.dropWhile Char.isDigit)

/-- strtol base 10 as used by `find_int_argument`: the raw parse with the
result clamped to the `long` range on overflow. -/
def strtol10 (s : List Char) : Int × List Char :=
  (clampLong (strtolRaw s).1, (strtolRaw s).2)

/-- Modelled from C `strtof(text, &processed)` on decimal inputs:
skip C whitespace, optional sign, digits with an optional fractional part
(at least one digit overall), optional exponent part; also accepts the
literal `nan`.  Values are exact rationals (binary rounding is not
modelled; no theorem below depends on it), built as one fraction
`digits(int ++ frac) / 10 ^ |frac|` scaled by the exponent.  If no
conversion is performed, returns 0 with the whole input as remainder, so
`processed == text` - in particular on the empty string the remainder is
empty and the `*processed != '\0'` check in the caller does not fire. -/
def strtofModel (s : List Char) : CFloat × List Char :=
  let t := s.dropWhile isSpaceC
  let neg : Bool := match t with | '-' :: _ => true | _ => false
  let t2 := match t with | '-' :: r => r | '+' :: r => r | _ => t
  match t2 with
  | 'n' :: 'a' :: 'n' :: r => (CFloat.nan, r)
  | _ =>
    let ipart := t2.takeWhile Char.isDigit
    let r1 := t2.dropWhile Char.isDigit
    let fr : List Char × List Char :=
      match r1 with
      | '.' :: rr => (rr.takeWhile Char.isDigit, rr.dropWhile Char.isDigit)
      | _ => ([], r1)
    if ipart = [] ∧ fr.1 = [] then (CFloat.val 0, s)
    else
      let ex : (Bool × Nat) × List Char :=
        match fr.2 with
        | 'e' :: rr | 'E' :: rr =>
          let eneg : Bool := match rr with | '-' :: _ => true | _ => false
          let rr2 := match rr with | '-' :: q => q | '+' :: q => q | _ => rr
          let eds := rr2.takeWhile Char.isDigit
          if eds = [] then ((false, 0), fr.2)
          else ((eneg, digitsToNat eds), rr2.dropWhile Char.isDigit)
        | _ => ((false, 0), fr.2)
      let num : Nat := digitsToNat (ipart ++ fr.1) * (if ex.1.1 then 1 else 10 ^ ex.1.2)
      let den : Nat := 10 ^ fr.1.length * (if ex.1.1 then 10 ^ ex.1.2 else 1)
      (CFloat.val (mkRat (if neg then -(num : Int) else (num : Int)) den), ex.2)

/-- find_bool_argument from `arg_parse.cc` lines 108-118. -/
def find_bool_argument (name : CStr) (argv : List CStr) : Except ArgError Bool :=
  match find_argument name argv with
  | none => .ok false
  | some [] => .ok true
  | some (c :: cs) => .error (.InvalidBooleanValue (c :: cs) name)

/-- find_int_argument from `arg_parse.cc` lines 120-152.  The absent and
present-but-empty cases share the default branch (`text == nullptr ||
text[0] == '\0'`); a present non-empty value is parsed with `strtol` and
must be fully consumed and lie in `[min_value, max_value]`. -/
def find_int_argument (name : CStr) (default_value min_value max_value : Int)
    (argv : List CStr) : Except ArgError Int :=
  let text := find_argument name argv
  if text = none ∨ text = some [] then
    if default_value < min_value ∨ default_value > max_value then
      .error (.MissingRequiredValue name)
    else
      .ok default_value
  else
    let t := text.getD []
    let p := strtol10 t
    if p.2 ≠ [] then
      .error (.InvalidIntegerValue t name)
    else if p.1 < min_value ∨ p.1 > max_value then
      .error (.IntegerOutOfRange t name min_value p.1 max_value)
    else
      .ok p.1

/-- find_float_argument from `arg_parse.cc` lines 154-187.  Only a fully
absent flag (`text == nullptr`) takes the default branch; any present text,
including the empty string, is fed to `strtof`.  The range check is
`f < min_value || f > max_value || f != f`. -/
def find_float_argument (name : CStr) (default_value min_value max_value : CFloat)
    (argv : List CStr) : Except ArgError CFloat :=
  match find_argument name argv with
  | none =>
    if CFloat.blt default_value min_value || CFloat.blt max_value default_value then
      .error (.MissingRequiredValue name)
    else
      .ok default_value
  | some text =>
    let p := strtofModel text
    if p.2 ≠ [] then
      .error (.InvalidFloatValue text name)
    else if CFloat.blt p.1 min_value || CFloat.blt max_value p.1 || CFloat.selfNe p.1 then
      .error (.FloatOutOfRange text name min_value p.1 max_value)
    else
      .ok p.1

/-- enumIndexOf text l i mirrors the scan loop of `find_enum_argument`:
the index (counting from `i`) of the first element of `l` equal to `text`
(`!strcmp(text, known_values[i])`), or `none`. -/
def enumIndexOf (text : CStr) : List CStr → Nat → Option Nat
  | [], _ => none
  | k :: ks, i => if text = k then some i else enumIndexOf text ks (i + 1)

/-- find_enum_argument from `arg_parse.cc` lines 189-212: absent with a
non-negative default index returns the default; absent otherwise is a
missing-required-value error; present text is compared by `strcmp` against
each known value in order and the first equal index is returned, whatever the
default index is; no match is an unrecognized-enum-value error (the diagnostic
prints the offending value, the flag name, the accepted values and the default
annotation). -/
def find_enum_argument (name : CStr) (default_index : Int) (known_values : List CStr)
    (argv : List CStr) : Except ArgError Int :=
  match find_argument name argv with
  | none =>
    if default_index ≥ 0 then .ok default_index
    else .error (.MissingRequiredValue name)
  | some text =>
    match enumIndexOf text known_values 0 with
    | some i => .ok (i : Int)
    | none => .error (.UnrecognizedEnumValue text name known_values default_index)

/-- firstKnownMatch known tok scans the known-argument list in order, as the
inner loop of `check_for_unknown_arguments` does, and reports how the first
matching known name matches: `some true` for a bare (exact) match,
`some false` for an inline `name=value` match, `none` when no known name
matches. -/
def firstKnownMatch (known : List CStr) (tok : CStr) : Option Bool :=
  match known with
  | [] => none
  | k :: ks =>
    match matchKind k tok with
    | .bare => some true
    | .inline _ => some false
    | .noMatch => firstKnownMatch ks tok

/-- checkAux mirrors the loop of `check_for_unknown_arguments` over the tokens
after the program name: stop at `"--"`; an unmatched token is a fatal
unrecognized-argument error; after a bare known flag, a following token that
does not start with `'-'` is consumed as its value (the `i++` in the C code)
and is not itself validated. -/
def checkAux (known : List CStr) (for_mode : Option CStr) : List CStr → Except ArgError Unit
  | [] => .ok ()
  | [tok] =>
    if tok = dashDash then .ok ()
    else
      match firstKnownMatch known tok with
      | none => .error (.UnrecognizedArgument tok for_mode known)
      | some _ => .ok ()
  | tok :: next :: rest2 =>
    if tok = dashDash then .ok ()
    else
      match firstKnownMatch known tok with
      | none => .error (.UnrecognizedArgument tok for_mode known)
      | some isBare =>
        if isBare then
          if next.head? = some '-' then checkAux known for_mode (next :: rest2)
          else checkAux known for_mode rest2
        else checkAux known for_mode (next :: rest2)

/-- check_for_unknown_arguments from `arg_parse.cc` lines 67-106. -/
def check_for_unknown_arguments (known : List CStr) (for_mode : Option CStr)
    (argv : List CStr) : Except ArgError Unit :=
  checkAux known for_mode (argv.drop 1)

/-- ValidArgs known l holds when the pre-boundary token list `l` decomposes
into validated units: an inline `known=value` token; a bare known flag that is
last; a bare known flag whose successor starts with `'-'` (the successor is
itself validated); or a bare known flag whose successor does not start with
`'-'` (the successor is consumed as its value and not validated).  Which way a
token matches is decided by the first known name that matches it, as in the
checker's inner loop. -/
inductive ValidArgs (known : List CStr) : List CStr → Prop
  | nil : ValidArgs known []
  | inline (tok : CStr) (rest : List CStr) :
      firstKnownMatch known tok = some false →
      ValidArgs known rest → ValidArgs known (tok :: rest)
  | bareAlone (tok : CStr) :
      firstKnownMatch known tok = some true → ValidArgs known [tok]
  | bareDash (tok next : CStr) (rest : List CStr) :
      firstKnownMatch known tok = some true →
      next.head? = some '-' →
      ValidArgs known (next :: rest) → ValidArgs known (tok :: next :: rest)
  | bareVal (tok next : CStr) (rest : List CStr) :
      firstKnownMatch known tok = some true →
      next.head? ≠ some '-' →
      ValidArgs known rest → ValidArgs known (tok :: next :: rest)

/-- ErrorsAt known bad l holds when the checker's scan over the pre-boundary
token list `l`, consuming validated units from the front exactly as ValidArgs
does, reaches `bad` as the first unconsumed token and `bad` matches no known
name: the scan stops there with an UnrecognizedArgument diagnostic.  A token
consumed as a bare flag's value (the `next` of `bareVal`) is skipped by the
scan and so can never be the reported token; the scan is deterministic, so at
most one `bad` satisfies this for a given list. -/
inductive ErrorsAt (known : List CStr) (bad : CStr) : List CStr → Prop
  | here (rest : List CStr) :
      firstKnownMatch known bad = none → ErrorsAt known bad (bad :: rest)
  | inline (tok : CStr) (rest : List CStr) :
      firstKnownMatch known tok = some false →
      ErrorsAt known bad rest → ErrorsAt known bad (tok :: rest)
  | bareDash (tok next : CStr) (rest : List CStr) :
      firstKnownMatch known tok = some true →
      next.head? = some '-' →
      ErrorsAt known bad (next :: rest) → ErrorsAt known bad (tok :: next :: rest)
  | bareVal (tok next : CStr) (rest : List CStr) :
      firstKnownMatch known tok = some true →
      next.head? ≠ some '-' →
      ErrorsAt known bad rest → ErrorsAt known bad (tok :: next :: rest)
/-! ### Basic lemmas about token matching -/

theorem restAfter_eq_some (name : CStr) :
    ∀ tok r : CStr, restAfter name tok = some r ↔ tok = name ++ r := by
  induction name with
  | nil => intro tok r; simp [restAfter]
  | cons c cs ih =>
    intro tok r
    cases tok with
    | nil => simp [restAfter]
    | cons d ds =>
      by_cases hcd : c = d
      · subst hcd
        simp [restAfter, ih]
      · simp [restAfter, if_neg hcd]
        intro hdc
        exact absurd hdc.symm hcd

theorem restAfter_self_append (name r : CStr) : restAfter name (name ++ r) = some r :=
  (restAfter_eq_some name (name ++ r) r).mpr rfl

theorem restAfter_self (name : CStr) : restAfter name name = some [] := by
  have h := restAfter_self_append name []
  simpa using h

theorem matchKind_eq_bare_iff (name tok : CStr) :
    matchKind name tok = .bare ↔ tok = name := by
  constructor
  · intro hk
    unfold matchKind at hk
    rcases h : restAfter name tok with _ | ⟨_ | ⟨c, v⟩⟩ <;> rw [h] at hk
    · simp at hk
    · simpa using (restAfter_eq_some name tok []).mp h
    · by_cases hc : c = '='
      · subst hc
        simp at hk
      · simp [hc] at hk
  · intro he
    unfold matchKind
    rw [he, restAfter_self]

theorem matchKind_eq_inline_iff (name tok v : CStr) :
    matchKind name tok = .inline v ↔ tok = name ++ '=' :: v := by
  constructor
  · intro hk
    unfold matchKind at hk
    rcases h : restAfter name tok with _ | ⟨_ | ⟨c, w⟩⟩ <;> rw [h] at hk
    · simp at hk
    · simp at hk
    · by_cases hc : c = '='
      · subst hc
        simp at hk
        subst hk
        exact (restAfter_eq_some name tok _).mp h
      · simp [hc] at hk
  · intro he
    subst he
    unfold matchKind
    rw [restAfter_self_append]
    simp

theorem matchTok_eq_false_iff (name tok : CStr) :
    matchTok name tok = false ↔ matchKind name tok = .noMatch := by
  unfold matchTok
  rcases h : matchKind name tok with _ | v | _ <;> simp

theorem matchTok_eq_true_iff (name tok : CStr) :
    matchTok name tok = true ↔ (tok = name ∨ ∃ v, tok = name ++ '=' :: v) := by
  unfold matchTok
  rcases h : matchKind name tok with _ | v | _
  · simp only [true_iff]
    exact Or.inl ((matchKind_eq_bare_iff name tok).mp h)
  · simp only [true_iff]
    exact Or.inr ⟨v, (matchKind_eq_inline_iff name tok v).mp h⟩
  · simp only [Bool.false_eq_true, false_iff]
    rintro (he | ⟨v, he⟩)
    · rw [(matchKind_eq_bare_iff name tok).mpr he] at h
      cases h
    · rw [(matchKind_eq_inline_iff name tok v).mpr he] at h
      cases h

/-! ### Step lemmas for the find_argument scan -/

theorem findArgAux_nil (name : CStr) : findArgAux name [] = none := rfl

theorem findArgAux_cons_dashDash (name : CStr) (rest : List CStr) :
    findArgAux name (dashDash :: rest) = none := by
  unfold findArgAux
  rw [if_pos rfl]

theorem findArgAux_cons_bare (name tok : CStr) (rest : List CStr)
    (hk : matchKind name tok = .bare) (hb : tok ≠ dashDash) :
    findArgAux name (tok :: rest) = some (nextTokenValue rest) := by
  unfold findArgAux
  rw [if_neg hb, hk]

theorem findArgAux_cons_inline (name tok v : CStr) (rest : List CStr)
    (hk : matchKind name tok = .inline v) (hb : tok ≠ dashDash) :
    findArgAux name (tok :: rest) = some v := by
  unfold findArgAux
  rw [if_neg hb, hk]

theorem findArgAux_cons_noMatch (name tok : CStr) (rest : List CStr)
    (hk : matchKind name tok = .noMatch) (hb : tok ≠ dashDash) :
    findArgAux name (tok :: rest) = findArgAux name rest := by
  conv_lhs => unfold findArgAux
  rw [if_neg hb, hk]

theorem findArgAux_append_skip (name : CStr) (pre l : List CStr)
    (hpre : ∀ t ∈ pre, t ≠ dashDash ∧ matchTok name t = false) :
    findArgAux name (pre ++ l) = findArgAux name l := by
  induction pre with
  | nil => rfl
  | cons t ts ih =>
    have ht := hpre t (List.mem_cons_self t ts)
    rw [List.cons_append,
      findArgAux_cons_noMatch name t (ts ++ l) ((matchTok_eq_false_iff name t).mp ht.2) ht.1]
    exact ih fun u hu => hpre u (List.mem_cons_of_mem t hu)

theorem nonBoundary_eq_true_iff (t : CStr) : nonBoundary t = true ↔ t ≠ dashDash := by
  simp [nonBoundary]

theorem findArgAux_eq_takeWhile (name : CStr) (l : List CStr) :
    findArgAux name l = findArgAux name (l.takeWhile nonBoundary) := by
  induction l with
  | nil => rfl
  | cons tok rest ih =>
    by_cases hb : tok = dashDash
    · subst hb
      rw [findArgAux_cons_dashDash,
        List.takeWhile_cons_of_neg (by simp [nonBoundary]), findArgAux_nil]
    · have hnb : nonBoundary tok = true := (nonBoundary_eq_true_iff tok).mpr hb
      rw [List.takeWhile_cons_of_pos hnb]
      rcases hk : matchKind name tok with _ | v | _
      · rw [findArgAux_cons_bare name tok rest hk hb,
          findArgAux_cons_bare name tok _ hk hb]
        cases rest with
        | nil => rfl
        | cons next r2 =>
          by_cases hnd : next = dashDash
          · subst hnd
            rw [List.takeWhile_cons_of_neg (by simp [nonBoundary])]
            rfl
          · rw [List.takeWhile_cons_of_pos ((nonBoundary_eq_true_iff next).mpr hnd)]
            rfl
      · rw [findArgAux_cons_inline name tok v rest hk hb,
          findArgAux_cons_inline name tok v _ hk hb]
      · rw [findArgAux_cons_noMatch name tok rest hk hb,
          findArgAux_cons_noMatch name tok _ hk hb, ih]

theorem findArgAux_none_iff (name : CStr) (l : List CStr) :
    findArgAux name l = none ↔
      ∀ t ∈ l.takeWhile nonBoundary, matchTok name t = false := by
  induction l with
  | nil => simp [findArgAux_nil]
  | cons tok rest ih =>
    by_cases hb : tok = dashDash
    · subst hb
      rw [findArgAux_cons_dashDash,
        List.takeWhile_cons_of_neg (by simp [nonBoundary])]
      simp
    · rw [List.takeWhile_cons_of_pos ((nonBoundary_eq_true_iff tok).mpr hb)]
      rcases hk : matchKind name tok with _ | v | _
      · rw [findArgAux_cons_bare name tok rest hk hb]
        constructor
        · intro h; cases h
        · intro h
          have ht := h tok (List.mem_cons_self tok _)
          rw [matchTok_eq_false_iff, hk] at ht
          cases ht
      · rw [findArgAux_cons_inline name tok v rest hk hb]
        constructor
        · intro h; cases h
        · intro h
          have ht := h tok (List.mem_cons_self tok _)
          rw [matchTok_eq_false_iff, hk] at ht
          cases ht
      · rw [findArgAux_cons_noMatch name tok rest hk hb, ih]
        constructor
        · intro h t ht
          rcases List.mem_cons.mp ht with he | ht2
          · subst he
            rw [matchTok_eq_false_iff]
            exact hk
          · exact h t ht2
        · intro h t ht
          exact h t (List.mem_cons_of_mem tok ht)

theorem takeWhile_eq_take_length {α : Type} (p : α → Bool) :
    ∀ l : List α, l.take (l.takeWhile p).length = l.takeWhile p := by
  intro l
  induction l with
  | nil => rfl
  | cons a as ih =>
    by_cases h : p a = true
    · rw [List.takeWhile_cons_of_pos h]
      simpa [List.take_succ_cons] using ih
    · rw [List.takeWhile_cons_of_neg (by simp [h])]
      rfl

theorem take_flagBoundary_eq (argv : List CStr) :
    argv.take (flagBoundary argv) = argv.take 1 ++ flagRegion argv := by
  unfold flagBoundary flagRegion
  rw [List.take_add]
  congr 1
  exact takeWhile_eq_take_length nonBoundary (argv.drop 1)

/-- C2: find_argument returns "not found" (NULL, modelled `none`) iff no token
at an index in `[1, boundary)` matches the name, where a token matches exactly
when it equals the name or is the name followed by `'='` and a value (second
conjunct), and the boundary is the index of the first `"--"` token or the
vector length (`flagRegion` lists the tokens at indices `[1, flagBoundary)`,
last conjunct): the result is entirely determined by those tokens (third
conjunct), so the program name at index 0 and every token at or after the
boundary never affect it. -/
theorem find_argument_not_found_iff (name : CStr) (argv : List CStr) :
    (find_argument name argv = none ↔
      ∀ t ∈ flagRegion argv, matchTok name t = false)
    ∧ (∀ t, matchTok name t = true ↔ (t = name ∨ ∃ v, t = name ++ '=' :: v))
    ∧ find_argument name argv = findArgAux name (flagRegion argv)
    ∧ argv.take (flagBoundary argv) = argv.take 1 ++ flagRegion argv :=
  ⟨findArgAux_none_iff name (argv.drop 1),
   fun t => matchTok_eq_true_iff name t,
   findArgAux_eq_takeWhile name (argv.drop 1),
   take_flagBoundary_eq argv⟩

/-- C3: when the argument vector contains an eligible matching token (here the
first one, since every earlier eligible token does not match), the result of
find_argument is determined by that token, whatever comes after it: an exact
(bare) match returns the empty string when it is the last token or the
following token begins with `'-'` (which covers a following `"--"` boundary
token), and otherwise returns the following token; a `name=value` match
returns the text after `'='` (possibly empty). -/
theorem find_argument_first_match (name prog tok : CStr) (pre rest : List CStr)
    (hpre : ∀ t ∈ pre, t ≠ dashDash ∧ matchTok name t = false)
    (hb : tok ≠ dashDash) :
    (tok = name →
      find_argument name (prog :: (pre ++ tok :: rest)) =
        some (match rest with
              | [] => []
              | next :: _ => if next.head? = some '-' then [] else next))
    ∧ (∀ v, tok = name ++ '=' :: v →
        find_argument name (prog :: (pre ++ tok :: rest)) = some v) := by
  have hdrop : find_argument name (prog :: (pre ++ tok :: rest)) =
      findArgAux name (pre ++ tok :: rest) := rfl
  constructor
  · intro he
    rw [hdrop, findArgAux_append_skip name pre _ hpre,
      findArgAux_cons_bare name tok rest ((matchKind_eq_bare_iff name tok).mpr he) hb]
    rfl
  · intro v he
    rw [hdrop, findArgAux_append_skip name pre _ hpre,
      findArgAux_cons_inline name tok v rest ((matchKind_eq_inline_iff name tok v).mpr he) hb]

theorem find_argument_first_match_witness :
    find_argument "x".data ["prog".data, "y=1".data, "x".data, dashDash] = some [] ∧
    find_argument "f".data ["prog".data, "f=5".data] = some "5".data :=
  ⟨(find_argument_first_match "x".data "prog".data "x".data ["y=1".data] [dashDash]
      (by decide) (by decide)).1 (by decide),
   (find_argument_first_match "f".data "prog".data "f=5".data [] []
      (by decide) (by decide)).2 "5".data (by decide)⟩

/-- C8: when a bare matching flag token is immediately followed by an
empty-string token (whose first character is the terminating NUL, so it does
not begin with `'-'`), find_argument consumes that token and returns the empty
string as the value - indistinguishable from a flag present with no value -
and consequently find_bool_argument returns true instead of failing. -/
theorem find_argument_bare_empty_next (name prog : CStr) (pre rest : List CStr)
    (hpre : ∀ t ∈ pre, t ≠ dashDash ∧ matchTok name t = false)
    (hb : name ≠ dashDash) :
    find_argument name (prog :: (pre ++ name :: ([] : CStr) :: rest)) = some []
    ∧ find_bool_argument name (prog :: (pre ++ name :: ([] : CStr) :: rest)) = .ok true := by
  have h1 : find_argument name (prog :: (pre ++ name :: ([] : CStr) :: rest)) = some [] := by
    show findArgAux name (pre ++ name :: ([] : CStr) :: rest) = some []
    rw [findArgAux_append_skip name pre _ hpre,
      findArgAux_cons_bare name name _ ((matchKind_eq_bare_iff name name).mpr rfl) hb]
    rfl
  refine ⟨h1, ?_⟩
  unfold find_bool_argument
  rw [h1]

theorem find_argument_bare_empty_next_witness :
    find_argument "x".data ["prog".data, "x".data, ([] : CStr)] = some [] ∧
    find_bool_argument "x".data ["prog".data, "x".data, ([] : CStr)] = .ok true :=
  find_argument_bare_empty_next "x".data "prog".data [] [] (by decide) (by decide)

/-- C6: find_bool_argument returns false when the flag is absent, true when it
is present with an empty value, and fails with InvalidBooleanValue (printing
the offending value and the flag name) when it is present with a non-empty
value. -/
theorem find_bool_argument_spec (name : CStr) (argv : List CStr) :
    (find_argument name argv = none → find_bool_argument name argv = .ok false)
    ∧ (find_argument name argv = some [] → find_bool_argument name argv = .ok true)
    ∧ (∀ c cs, find_argument name argv = some (c :: cs) →
        find_bool_argument name argv = .error (.InvalidBooleanValue (c :: cs) name)) := by
  refine ⟨?_, ?_, ?_⟩
  · intro h
    unfold find_bool_argument
    rw [h]
  · intro h
    unfold find_bool_argument
    rw [h]
  · intro c cs h
    unfold find_bool_argument
    rw [h]

theorem find_bool_argument_spec_witness :
    find_bool_argument "v".data ["prog".data, "v=yes".data] =
      .error (.InvalidBooleanValue "yes".data "v".data) :=
  (find_bool_argument_spec "v".data ["prog".data, "v=yes".data]).2.2 'y' "es".data (by decide)

/-! ### The integer path -/

theorem find_int_argument_default (name : CStr) (d mn mx : Int) (argv : List CStr)
    (h : find_argument name argv = none ∨ find_argument name argv = some []) :
    find_int_argument name d mn mx argv =
      if d < mn ∨ d > mx then .error (.MissingRequiredValue name) else .ok d := by
  rcases h with h | h <;> simp [find_int_argument, h]

theorem find_int_argument_present (name text : CStr) (d mn mx val0 : Int)
    (rest : List Char) (argv : List CStr)
    (h : find_argument name argv = some text) (hne : text ≠ [])
    (hp : strtol10 text = (val0, rest)) :
    find_int_argument name d mn mx argv =
      (if rest ≠ [] then .error (.InvalidIntegerValue text name)
       else if val0 < mn ∨ val0 > mx then .error (.IntegerOutOfRange text name mn val0 mx)
       else .ok val0) := by
  simp [find_int_argument, h, hne, hp]

/-- C5: find_int_argument treats an absent flag and a present-but-empty value
alike: it fails with MissingRequiredValue when the default lies outside
`[min, max]` and returns the default otherwise.  A present non-empty value is
parsed with strtol in base 10; if parsing leaves unconsumed characters it
fails with InvalidIntegerValue, if the parsed value lies outside `[min, max]`
it fails with IntegerOutOfRange (recording both bounds and the value), and
otherwise the parsed value is returned. -/
theorem find_int_argument_spec (name : CStr) (d mn mx : Int) (argv : List CStr) :
    ((find_argument name argv = none ∨ find_argument name argv = some []) →
      ((d < mn ∨ d > mx →
          find_int_argument name d mn mx argv = .error (.MissingRequiredValue name))
       ∧ (mn ≤ d → d ≤ mx → find_int_argument name d mn mx argv = .ok d)))
    ∧ (∀ text val0 rest, find_argument name argv = some text → text ≠ [] →
        strtol10 text = (val0, rest) →
        ((rest ≠ [] →
           find_int_argument name d mn mx argv = .error (.InvalidIntegerValue text name))
         ∧ (rest = [] → val0 < mn ∨ val0 > mx →
           find_int_argument name d mn mx argv =
             .error (.IntegerOutOfRange text name mn val0 mx))
         ∧ (rest = [] → mn ≤ val0 → val0 ≤ mx →
           find_int_argument name d mn mx argv = .ok val0))) := by
  constructor
  · intro h
    constructor
    · intro hout
      rw [find_int_argument_default name d mn mx argv h, if_pos hout]
    · intro h1 h2
      rw [find_int_argument_default name d mn mx argv h,
        if_neg (by push_neg; exact ⟨h1, h2⟩)]
  · intro text val0 rest hfind hne hp
    refine ⟨?_, ?_, ?_⟩
    · intro hrest
      rw [find_int_argument_present name text d mn mx val0 rest argv hfind hne hp,
        if_pos hrest]
    · intro hrest hout
      rw [find_int_argument_present name text d mn mx val0 rest argv hfind hne hp,
        if_neg (not_not_intro hrest), if_pos hout]
    · intro hrest h1 h2
      rw [find_int_argument_present name text d mn mx val0 rest argv hfind hne hp,
        if_neg (not_not_intro hrest), if_neg (by push_neg; exact ⟨h1, h2⟩)]

theorem find_int_argument_spec_witness :
    find_int_argument "n".data 0 0 10 ["prog".data, "n=7".data] = .ok 7 ∧
    find_int_argument "n".data 0 0 10 ["prog".data, "n=11".data] =
      .error (.IntegerOutOfRange "11".data "n".data 0 11 10) :=
  ⟨(((find_int_argument_spec "n".data 0 0 10 ["prog".data, "n=7".data]).2
      "7".data 7 [] (by decide) (by decide) (by decide)).2.2 rfl (by decide) (by decide)),
   (((find_int_argument_spec "n".data 0 0 10 ["prog".data, "n=11".data]).2
      "11".data 11 [] (by decide) (by decide) (by decide)).2.1 rfl (by decide))⟩

theorem clampLong_keeps_out_of_int_range (mn mx v : Int)
    (hmn1 : -2147483648 ≤ mn) (hmn2 : mn ≤ 2147483647)
    (hmx1 : -2147483648 ≤ mx) (hmx2 : mx ≤ 2147483647)
    (hout : v < mn ∨ v > mx) : clampLong v < mn ∨ clampLong v > mx := by
  simp only [clampLong, longMin, longMax, max_def, min_def]
  split_ifs <;> omega

/-- C10: the range check of find_int_argument happens on the value as parsed
by strtol into a long, before any narrowing to int: for int-valued bounds,
every value text that fully parses to an integer outside `[min, max]` -
including magnitudes beyond the int range, which strtol clamps to the long
range - makes the call fail with IntegerOutOfRange, and the call never
returns a wrapped or truncated value. -/
theorem find_int_argument_long_range (name text : CStr) (d mn mx v : Int) (argv : List CStr)
    (hmn1 : -2147483648 ≤ mn) (hmn2 : mn ≤ 2147483647)
    (hmx1 : -2147483648 ≤ mx) (hmx2 : mx ≤ 2147483647)
    (hfind : find_argument name argv = some text) (hne : text ≠ [])
    (hraw : strtolRaw text = (v, []))
    (hout : v < mn ∨ v > mx) :
    find_int_argument name d mn mx argv =
      .error (.IntegerOutOfRange text name mn (clampLong v) mx)
    ∧ ∀ r, find_int_argument name d mn mx argv ≠ .ok r := by
  have hp : strtol10 text = (clampLong v, []) := by
    unfold strtol10
    rw [hraw]
  have herr : find_int_argument name d mn mx argv =
      .error (.IntegerOutOfRange text name mn (clampLong v) mx) := by
    rw [find_int_argument_present name text d mn mx (clampLong v) [] argv hfind hne hp,
      if_neg (not_not_intro rfl),
      if_pos (clampLong_keeps_out_of_int_range mn mx v hmn1 hmn2 hmx1 hmx2 hout)]
  refine ⟨herr, fun r hok => ?_⟩
  rw [herr] at hok
  cases hok

theorem find_int_argument_long_range_witness :
    find_int_argument "n".data 0 0 10 ["prog".data, "n=9999999999999999999999".data] =
      .error (.IntegerOutOfRange "9999999999999999999999".data "n".data 0
        (clampLong 9999999999999999999999) 10) :=
  (find_int_argument_long_range "n".data "9999999999999999999999".data 0 0 10
    9999999999999999999999 ["prog".data, "n=9999999999999999999999".data]
    (by decide) (by decide) (by decide) (by decide)
    (by decide) (by decide) (by decide) (by decide)).1

/-! ### The float path -/

theorem find_float_argument_absent (name : CStr) (d mn mx : CFloat) (argv : List CStr)
    (h : find_argument name argv = none) :
    find_float_argument name d mn mx argv =
      if CFloat.blt d mn || CFloat.blt mx d then .error (.MissingRequiredValue name)
      else .ok d := by
  simp [find_float_argument, h]

theorem find_float_argument_present (name text : CStr) (d mn mx f : CFloat)
    (rest : List Char) (argv : List CStr)
    (h : find_argument name argv = some text) (hp : strtofModel text = (f, rest)) :
    find_float_argument name d mn mx argv =
      (if rest ≠ [] then .error (.InvalidFloatValue text name)
       else if CFloat.blt f mn || CFloat.blt mx f || CFloat.selfNe f then
         .error (.FloatOutOfRange text name mn f mx)
       else .ok f) := by
  simp [find_float_argument, h, hp]

theorem CFloat.blt_nan_left (x : CFloat) : CFloat.blt .nan x = false := by
  cases x <;> rfl

theorem CFloat.blt_nan_right (x : CFloat) : CFloat.blt x .nan = false := by
  cases x <;> rfl

theorem CFloat.range_check_false_iff (mn mx f : CFloat)
    (hmn : mn ≠ .nan) (hmx : mx ≠ .nan) :
    (CFloat.blt f mn || CFloat.blt mx f || CFloat.selfNe f) = false ↔
      (CFloat.ble mn f = true ∧ CFloat.ble f mx = true ∧ f ≠ .nan) := by
  rcases mn with _ | a
  · exact absurd rfl hmn
  rcases mx with _ | b
  · exact absurd rfl hmx
  rcases f with _ | q
  · simp [CFloat.blt, CFloat.ble, CFloat.selfNe]
  · simp [CFloat.blt, CFloat.ble, CFloat.selfNe, not_lt, and_comm]

/-- C7: a successfully parsed present float value is subjected to the check
`f < min || f > max || f != f`, so for non-NaN bounds the call fails with
FloatOutOfRange exactly when NOT (min ≤ value ≤ max and value is not NaN),
and returns the value when the check passes.  For an absent flag the
default-validity check mirrors the integer path using `<`/`>` comparisons
(MissingRequiredValue exactly when default < min or default > max), and since
every comparison against NaN is false, a NaN default always passes the check
and is returned. -/
theorem find_float_argument_range_spec (name : CStr) (d mn mx : CFloat)
    (argv : List CStr) :
    (∀ text f, find_argument name argv = some text → strtofModel text = (f, []) →
      (mn ≠ .nan → mx ≠ .nan →
        (find_float_argument name d mn mx argv =
            .error (.FloatOutOfRange text name mn f mx) ↔
          ¬(CFloat.ble mn f = true ∧ CFloat.ble f mx = true ∧ f ≠ .nan)))
      ∧ ((CFloat.blt f mn || CFloat.blt mx f || CFloat.selfNe f) = false →
          find_float_argument name d mn mx argv = .ok f))
    ∧ (find_argument name argv = none →
        ((CFloat.blt d mn || CFloat.blt mx d) = true →
          find_float_argument name d mn mx argv = .error (.MissingRequiredValue name))
        ∧ ((CFloat.blt d mn || CFloat.blt mx d) = false →
          find_float_argument name d mn mx argv = .ok d)
        ∧ (d = .nan → find_float_argument name d mn mx argv = .ok .nan)) := by
  constructor
  · intro text f hfind hp
    have hpres := find_float_argument_present name text d mn mx f [] argv hfind hp
    rw [if_neg (not_not_intro rfl)] at hpres
    constructor
    · intro hmn hmx
      rw [hpres]
      cases hc : (CFloat.blt f mn || CFloat.blt mx f || CFloat.selfNe f) with
      | false =>
        rw [if_neg Bool.false_ne_true]
        constructor
        · intro h
          cases h
        · intro hneg
          exact ((hneg ((CFloat.range_check_false_iff mn mx f hmn hmx).mp hc)).elim)
      | true =>
        rw [if_pos rfl]
        constructor
        · intro _ hconj
          rw [← CFloat.range_check_false_iff mn mx f hmn hmx] at hconj
          rw [hconj] at hc
          cases hc
        · intro _
          rfl
    · intro hc
      rw [hpres, hc, if_neg Bool.false_ne_true]
  · intro hfind
    have habs := find_float_argument_absent name d mn mx argv hfind
    refine ⟨?_, ?_, ?_⟩
    · intro hc
      rw [habs, hc, if_pos rfl]
    · intro hc
      rw [habs, hc, if_neg Bool.false_ne_true]
    · intro hd
      subst hd
      rw [habs, CFloat.blt_nan_left, CFloat.blt_nan_right, Bool.or_self,
        if_neg Bool.false_ne_true]

theorem find_float_argument_range_spec_witness :
    find_float_argument "x".data (.val 0) (.val 0) (.val 10) ["prog".data, "x=2".data] =
      .ok (.val 2) ∧
    find_float_argument "x".data .nan (.val 0) (.val 10) ["prog".data] = .ok .nan :=
  ⟨((find_float_argument_range_spec "x".data (.val 0) (.val 0) (.val 10)
      ["prog".data, "x=2".data]).1 "2".data (.val 2) (by decide) (by decide)).2 (by decide),
   ((find_float_argument_range_spec "x".data .nan (.val 0) (.val 10)
      ["prog".data]).2 (by decide)).2.2 rfl⟩

/-- C1 counterexample: with the flag present as the inline token `x=` (empty
value), find_float_argument does not fail with InvalidFloatValue as claimed:
strtof performs no conversion on the empty string, but the end pointer then
rests on the terminating NUL, so the `*processed != '\0'` check passes and
the parsed value 0.0 goes through the range check - here, with bounds
`[-1, 1]` containing zero and default 9, the call returns 0.0 (also showing
the default logic is indeed not applied). -/
theorem find_float_argument_empty_counterexample :
    find_argument "x".data ["prog".data, "x=".data] = some [] ∧
    find_float_argument "x".data (.val 9) (.val (-1)) (.val 1) ["prog".data, "x=".data] =
      .ok (.val 0) ∧
    find_float_argument "x".data (.val 9) (.val (-1)) (.val 1) ["prog".data, "x=".data] ≠
      .error (.InvalidFloatValue [] "x".data) := by
  refine ⟨by decide, by decide, by decide⟩

/-- C1 amended: an empty present value is indeed not treated as absent - the
default logic is skipped whenever find_argument returns a (possibly empty)
value - but feeding the empty string to strtof does not produce
InvalidFloatValue: no characters are consumed and the end pointer rests on the
terminating NUL, so the full-parse check passes with value 0.0, and the call
fails with FloatOutOfRange when 0.0 lies outside `[min, max]` and returns 0.0
otherwise. -/
theorem find_float_argument_empty_value (name : CStr) (d mn mx : CFloat)
    (argv : List CStr) (h : find_argument name argv = some []) :
    find_float_argument name d mn mx argv =
      (if CFloat.blt (.val 0) mn || CFloat.blt mx (.val 0) then
        .error (.FloatOutOfRange [] name mn (.val 0) mx)
      else .ok (.val 0)) := by
  have hp : strtofModel [] = (.val 0, []) := rfl
  rw [find_float_argument_present name [] d mn mx (.val 0) [] argv h hp,
    if_neg (not_not_intro rfl)]
  simp [CFloat.selfNe]

theorem find_float_argument_empty_value_witness :
    find_float_argument "p".data (.val 5) (.val 1) (.val 2) ["prog".data, "p=".data] =
      .error (.FloatOutOfRange [] "p".data (.val 1) (.val 0) (.val 2)) := by
  rw [find_float_argument_empty_value "p".data (.val 5) (.val 1) (.val 2)
    ["prog".data, "p=".data] (by decide)]
  decide

/-! ### The enum path -/

theorem enumIndexOf_eq_none_iff (text : CStr) :
    ∀ (l : List CStr) (i : Nat), enumIndexOf text l i = none ↔ text ∉ l := by
  intro l
  induction l with
  | nil => intro i; simp [enumIndexOf]
  | cons k ks ih =>
    intro i
    by_cases hk : text = k
    · simp [enumIndexOf, hk]
    · simp only [enumIndexOf, if_neg hk, ih, List.mem_cons]
      constructor
      · intro h hmem
        rcases hmem with he | hmem2
        · exact hk he
        · exact h hmem2
      · intro h hmem
        exact h (Or.inr hmem)

/-- C9: find_enum_argument never falls back to the default index when the
flag is present: a bare flag (empty value) has its empty text compared
against known_values like any other value, for every default index
(including non-negative ones), so it fails with UnrecognizedEnumValue unless
the empty string is itself one of the known values, in which case that
value's index is returned. -/
theorem find_enum_argument_present_ignores_default (name : CStr) (default_index : Int)
    (known_values : List CStr) (argv : List CStr)
    (h : find_argument name argv = some []) :
    (([] : CStr) ∉ known_values →
      find_enum_argument name default_index known_values argv =
        .error (.UnrecognizedEnumValue [] name known_values default_index))
    ∧ (∀ i, enumIndexOf [] known_values 0 = some i →
        find_enum_argument name default_index known_values argv = .ok (i : Int)) := by
  constructor
  · intro hnmem
    simp only [find_enum_argument, h]
    rw [(enumIndexOf_eq_none_iff [] known_values 0).mpr hnmem]
  · intro i hi
    simp only [find_enum_argument, h]
    rw [hi]

theorem find_enum_argument_present_ignores_default_witness :
    find_enum_argument "mode".data 1 ["a".data, "b".data] ["prog".data, "mode".data] =
      .error (.UnrecognizedEnumValue [] "mode".data ["a".data, "b".data] 1) ∧
    find_enum_argument "mode".data (-1) ["".data, "b".data] ["prog".data, "mode".data] =
      .ok 0 :=
  ⟨(find_enum_argument_present_ignores_default "mode".data 1 ["a".data, "b".data]
      ["prog".data, "mode".data] (by decide)).1 (by decide),
   (find_enum_argument_present_ignores_default "mode".data (-1) ["".data, "b".data]
      ["prog".data, "mode".data] (by decide)).2 0 (by decide)⟩

/-! ### The unknown-argument checker -/

theorem checkAux_cons_dashDash (known : List CStr) (mode : Option CStr) (l : List CStr) :
    checkAux known mode (dashDash :: l) = .ok () := by
  cases l with
  | nil =>
    unfold checkAux
    rw [if_pos rfl]
  | cons a as =>
    unfold checkAux
    rw [if_pos rfl]

theorem checkAux_singleton_err (known : List CStr) (mode : Option CStr) (tok : CStr)
    (hb : tok ≠ dashDash) (hf : firstKnownMatch known tok = none) :
    checkAux known mode [tok] = .error (.UnrecognizedArgument tok mode known) := by
  unfold checkAux
  rw [if_neg hb, hf]

theorem checkAux_singleton_ok (known : List CStr) (mode : Option CStr) (tok : CStr)
    (b : Bool) (hb : tok ≠ dashDash) (hf : firstKnownMatch known tok = some b) :
    checkAux known mode [tok] = .ok () := by
  unfold checkAux
  rw [if_neg hb, hf]

theorem checkAux_cons2_err (known : List CStr) (mode : Option CStr)
    (tok next : CStr) (rest2 : List CStr)
    (hb : tok ≠ dashDash) (hf : firstKnownMatch known tok = none) :
    checkAux known mode (tok :: next :: rest2) =
      .error (.UnrecognizedArgument tok mode known) := by
  unfold checkAux
  rw [if_neg hb, hf]

theorem checkAux_cons2_inline (known : List CStr) (mode : Option CStr)
    (tok next : CStr) (rest2 : List CStr)
    (hb : tok ≠ dashDash) (hf : firstKnownMatch known tok = some false) :
    checkAux known mode (tok :: next :: rest2) = checkAux known mode (next :: rest2) := by
  conv_lhs => unfold checkAux
  rw [if_neg hb, hf]
  simp

theorem checkAux_cons2_bare_dash (known : List CStr) (mode : Option CStr)
    (tok next : CStr) (rest2 : List CStr)
    (hb : tok ≠ dashDash) (hf : firstKnownMatch known tok = some true)
    (hd : next.head? = some '-') :
    checkAux known mode (tok :: next :: rest2) = checkAux known mode (next :: rest2) := by
  conv_lhs => unfold checkAux
  rw [if_neg hb, hf]
  simp [hd]

theorem checkAux_cons2_bare_val (known : List CStr) (mode : Option CStr)
    (tok next : CStr) (rest2 : List CStr)
    (hb : tok ≠ dashDash) (hf : firstKnownMatch known tok = some true)
    (hd : next.head? ≠ some '-') :
    checkAux known mode (tok :: next :: rest2) = checkAux known mode rest2 := by
  conv_lhs => unfold checkAux
  rw [if_neg hb, hf]
  simp [hd]

theorem validArgs_not_cons_of_none {known : List CStr} {tok : CStr} {l : List CStr}
    (h : firstKnownMatch known tok = none) : ¬ ValidArgs known (tok :: l) := by
  intro hv
  cases hv with
  | inline _ _ h1 _ => rw [h1] at h; cases h
  | bareAlone _ h1 => rw [h1] at h; cases h
  | bareDash _ _ _ h1 _ _ => rw [h1] at h; cases h
  | bareVal _ _ _ h1 _ _ => rw [h1] at h; cases h

theorem validArgs_cons_inline_iff {known : List CStr} {tok : CStr} {l : List CStr}
    (h : firstKnownMatch known tok = some false) :
    ValidArgs known (tok :: l) ↔ ValidArgs known l := by
  constructor
  · intro hv
    cases hv with
    | inline _ _ _ h2 => exact h2
    | bareAlone _ h1 => rw [h1] at h; simp at h
    | bareDash _ _ _ h1 _ _ => rw [h1] at h; simp at h
    | bareVal _ _ _ h1 _ _ => rw [h1] at h; simp at h
  · intro hv
    exact ValidArgs.inline tok l h hv

theorem validArgs_cons_bareDash_iff {known : List CStr} {tok next : CStr} {l : List CStr}
    (h : firstKnownMatch known tok = some true) (hd : next.head? = some '-') :
    ValidArgs known (tok :: next :: l) ↔ ValidArgs known (next :: l) := by
  constructor
  · intro hv
    cases hv with
    | inline _ _ h1 _ => rw [h1] at h; simp at h
    | bareDash _ _ _ _ _ h3 => exact h3
    | bareVal _ _ _ _ h2 _ => exact absurd hd h2
  · intro hv
    exact ValidArgs.bareDash tok next l h hd hv

theorem validArgs_cons_bareVal_iff {known : List CStr} {tok next : CStr} {l : List CStr}
    (h : firstKnownMatch known tok = some true) (hd : next.head? ≠ some '-') :
    ValidArgs known (tok :: next :: l) ↔ ValidArgs known l := by
  constructor
  · intro hv
    cases hv with
    | inline _ _ h1 _ => rw [h1] at h; simp at h
    | bareDash _ _ _ _ h2 _ => exact absurd h2 hd
    | bareVal _ _ _ _ _ h3 => exact h3
  · intro hv
    exact ValidArgs.bareVal tok next l h hd hv

theorem checkAux_ok_iff (known : List CStr) (mode : Option CStr) :
    ∀ l : List CStr, checkAux known mode l = .ok () ↔
      ValidArgs known (l.takeWhile nonBoundary)
  | [] => by
    simp only [List.takeWhile_nil]
    exact ⟨fun _ => ValidArgs.nil, fun _ => rfl⟩
  | [tok] => by
    by_cases hb : tok = dashDash
    · subst hb
      rw [checkAux_cons_dashDash, List.takeWhile_cons_of_neg (by simp [nonBoundary])]
      exact ⟨fun _ => ValidArgs.nil, fun _ => rfl⟩
    · rw [List.takeWhile_cons_of_pos ((nonBoundary_eq_true_iff tok).mpr hb),
        List.takeWhile_nil]
      rcases hf : firstKnownMatch known tok with _ | b
      · rw [checkAux_singleton_err known mode tok hb hf]
        constructor
        · intro hok
          cases hok
        · intro hv
          exact absurd hv (validArgs_not_cons_of_none hf)
      · rw [checkAux_singleton_ok known mode tok b hb hf]
        refine ⟨fun _ => ?_, fun _ => rfl⟩
        cases b
        · exact ValidArgs.inline tok [] hf ValidArgs.nil
        · exact ValidArgs.bareAlone tok hf
  | tok :: next :: rest2 => by
    by_cases hb : tok = dashDash
    · subst hb
      rw [checkAux_cons_dashDash, List.takeWhile_cons_of_neg (by simp [nonBoundary])]
      exact ⟨fun _ => ValidArgs.nil, fun _ => rfl⟩
    · rw [List.takeWhile_cons_of_pos ((nonBoundary_eq_true_iff tok).mpr hb)]
      rcases hf : firstKnownMatch known tok with _ | b
      · rw [checkAux_cons2_err known mode tok next rest2 hb hf]
        constructor
        · intro hok
          cases hok
        · intro hv
          exact absurd hv (validArgs_not_cons_of_none hf)
      · cases b
        · rw [checkAux_cons2_inline known mode tok next rest2 hb hf,
            checkAux_ok_iff known mode (next :: rest2)]
          exact (validArgs_cons_inline_iff hf).symm
        · by_cases hd : next.head? = some '-'
          · by_cases hnd : next = dashDash
            · subst hnd
              rw [checkAux_cons2_bare_dash known mode tok _ rest2 hb hf hd,
                checkAux_cons_dashDash,
                List.takeWhile_cons_of_neg (by simp [nonBoundary])]
              exact ⟨fun _ => ValidArgs.bareAlone tok hf, fun _ => rfl⟩
            · rw [checkAux_cons2_bare_dash known mode tok next rest2 hb hf hd,
                checkAux_ok_iff known mode (next :: rest2),
                List.takeWhile_cons_of_pos ((nonBoundary_eq_true_iff next).mpr hnd)]
              exact (validArgs_cons_bareDash_iff hf hd).symm
          · have hnd : next ≠ dashDash := fun he => hd (by rw [he]; rfl)
            rw [checkAux_cons2_bare_val known mode tok next rest2 hb hf hd,
              checkAux_ok_iff known mode rest2,
              List.takeWhile_cons_of_pos ((nonBoundary_eq_true_iff next).mpr hnd)]
            exact (validArgs_cons_bareVal_iff hf hd).symm

theorem checkAux_error_shape (known : List CStr) (mode : Option CStr) :
    ∀ (l : List CStr) (e : ArgError), checkAux known mode l = .error e →
      ∃ tok, tok ∈ l.takeWhile nonBoundary ∧ firstKnownMatch known tok = none ∧
        e = .UnrecognizedArgument tok mode known
  | [], e => by
    intro h
    cases h
  | [tok], e => by
    intro h
    by_cases hb : tok = dashDash
    · subst hb
      rw [checkAux_cons_dashDash] at h
      cases h
    · rcases hf : firstKnownMatch known tok with _ | b
      · rw [checkAux_singleton_err known mode tok hb hf] at h
        cases h
        refine ⟨tok, ?_, hf, rfl⟩
        rw [List.takeWhile_cons_of_pos ((nonBoundary_eq_true_iff tok).mpr hb)]
        exact List.mem_cons_self tok _
      · rw [checkAux_singleton_ok known mode tok b hb hf] at h
        cases h
  | tok :: next :: rest2, e => by
    intro h
    by_cases hb : tok = dashDash
    · subst hb
      rw [checkAux_cons_dashDash] at h
      cases h
    · have hmem1 : ∀ t ∈ (next :: rest2).takeWhile nonBoundary,
          t ∈ (tok :: next :: rest2).takeWhile nonBoundary := by
        intro t ht
        rw [List.takeWhile_cons_of_pos ((nonBoundary_eq_true_iff tok).mpr hb)]
        exact List.mem_cons_of_mem tok ht
      rcases hf : firstKnownMatch known tok with _ | b
      · rw [checkAux_cons2_err known mode tok next rest2 hb hf] at h
        cases h
        refine ⟨tok, ?_, hf, rfl⟩
        rw [List.takeWhile_cons_of_pos ((nonBoundary_eq_true_iff tok).mpr hb)]
        exact List.mem_cons_self tok _
      · cases b
        · rw [checkAux_cons2_inline known mode tok next rest2 hb hf] at h
          obtain ⟨t, ht, hfn, he⟩ := checkAux_error_shape known mode (next :: rest2) e h
          exact ⟨t, hmem1 t ht, hfn, he⟩
        · by_cases hd : next.head? = some '-'
          · rw [checkAux_cons2_bare_dash known mode tok next rest2 hb hf hd] at h
            obtain ⟨t, ht, hfn, he⟩ := checkAux_error_shape known mode (next :: rest2) e h
            exact ⟨t, hmem1 t ht, hfn, he⟩
          · have hnd : next ≠ dashDash := fun he => hd (by rw [he]; rfl)
            rw [checkAux_cons2_bare_val known mode tok next rest2 hb hf hd] at h
            obtain ⟨t, ht, hfn, he⟩ := checkAux_error_shape known mode rest2 e h
            refine ⟨t, ?_, hfn, he⟩
            rw [List.takeWhile_cons_of_pos ((nonBoundary_eq_true_iff tok).mpr hb),
              List.takeWhile_cons_of_pos ((nonBoundary_eq_true_iff next).mpr hnd)]
            exact List.mem_cons_of_mem tok (List.mem_cons_of_mem next ht)

theorem firstKnownMatch_none_iff (known : List CStr) (tok : CStr) :
    firstKnownMatch known tok = none ↔ ∀ k ∈ known, matchTok k tok = false := by
  induction known with
  | nil => simp [firstKnownMatch]
  | cons k ks ih =>
    rcases hk : matchKind k tok with _ | v | _
    · constructor
      · intro h
        unfold firstKnownMatch at h
        rw [hk] at h
        cases h
      · intro h
        have hkk := h k (List.mem_cons_self k ks)
        rw [matchTok_eq_false_iff, hk] at hkk
        cases hkk
    · constructor
      · intro h
        unfold firstKnownMatch at h
        rw [hk] at h
        cases h
      · intro h
        have hkk := h k (List.mem_cons_self k ks)
        rw [matchTok_eq_false_iff, hk] at hkk
        cases hkk
    · have hstep : firstKnownMatch (k :: ks) tok = firstKnownMatch ks tok := by
        conv_lhs => unfold firstKnownMatch
        rw [hk]
      rw [hstep, ih]
      constructor
      · intro h t ht
        rcases List.mem_cons.mp ht with he | ht2
        · subst he
          rw [matchTok_eq_false_iff]
          exact hk
        · exact h t ht2
      · intro h t ht
        exact h t (List.mem_cons_of_mem k ht)

theorem errorsAt_nil {known : List CStr} {bad : CStr} : ¬ ErrorsAt known bad [] := by
  intro h
  cases h

theorem errorsAt_cons_of_none_iff {known : List CStr} {tok bad : CStr} {l : List CStr}
    (h : firstKnownMatch known tok = none) :
    ErrorsAt known bad (tok :: l) ↔ bad = tok := by
  constructor
  · intro he
    cases he with
    | here _ _ => rfl
    | inline _ _ h1 _ => rw [h1] at h; cases h
    | bareDash _ _ _ h1 _ _ => rw [h1] at h; cases h
    | bareVal _ _ _ h1 _ _ => rw [h1] at h; cases h
  · intro he
    subst he
    exact ErrorsAt.here l h

theorem errorsAt_cons_inline_iff {known : List CStr} {tok bad : CStr} {l : List CStr}
    (h : firstKnownMatch known tok = some false) :
    ErrorsAt known bad (tok :: l) ↔ ErrorsAt known bad l := by
  constructor
  · intro he
    cases he with
    | here _ h1 => rw [h1] at h; cases h
    | inline _ _ _ h2 => exact h2
    | bareDash _ _ _ h1 _ _ => rw [h1] at h; simp at h
    | bareVal _ _ _ h1 _ _ => rw [h1] at h; simp at h
  · intro he
    exact ErrorsAt.inline tok l h he

theorem errorsAt_cons_bareDash_iff {known : List CStr} {tok next bad : CStr} {l : List CStr}
    (h : firstKnownMatch known tok = some true) (hd : next.head? = some '-') :
    ErrorsAt known bad (tok :: next :: l) ↔ ErrorsAt known bad (next :: l) := by
  constructor
  · intro he
    cases he with
    | here _ h1 => rw [h1] at h; cases h
    | inline _ _ h1 _ => rw [h1] at h; simp at h
    | bareDash _ _ _ _ _ h3 => exact h3
    | bareVal _ _ _ _ h2 _ => exact absurd hd h2
  · intro he
    exact ErrorsAt.bareDash tok next l h hd he

theorem errorsAt_cons_bareVal_iff {known : List CStr} {tok next bad : CStr} {l : List CStr}
    (h : firstKnownMatch known tok = some true) (hd : next.head? ≠ some '-') :
    ErrorsAt known bad (tok :: next :: l) ↔ ErrorsAt known bad l := by
  constructor
  · intro he
    cases he with
    | here _ h1 => rw [h1] at h; cases h
    | inline _ _ h1 _ => rw [h1] at h; simp at h
    | bareDash _ _ _ _ h2 _ => exact absurd h2 hd
    | bareVal _ _ _ _ _ h3 => exact h3
  · intro he
    exact ErrorsAt.bareVal tok next l h hd he

theorem errorsAt_cons_bare_singleton {known : List CStr} {tok bad : CStr}
    (h : firstKnownMatch known tok = some true) : ¬ ErrorsAt known bad [tok] := by
  intro he
  cases he with
  | here _ h1 => rw [h1] at h; cases h
  | inline _ _ h1 _ => rw [h1] at h; simp at h

theorem errorsAt_unique {known : List CStr} {t1 t2 : CStr} :
    ∀ {l : List CStr}, ErrorsAt known t1 l → ErrorsAt known t2 l → t1 = t2 := by
  intro l h1
  induction h1 with
  | here rest hn =>
    intro h2
    cases h2 with
    | here _ _ => rfl
    | inline _ _ hk _ => rw [hk] at hn; cases hn
    | bareDash _ _ _ hk _ _ => rw [hk] at hn; cases hn
    | bareVal _ _ _ hk _ _ => rw [hk] at hn; cases hn
  | inline tok rest hk _ ih =>
    intro h2
    cases h2 with
    | here _ hn => rw [hk] at hn; cases hn
    | inline _ _ _ hr => exact ih hr
    | bareDash _ _ _ hk2 _ _ => rw [hk2] at hk; simp at hk
    | bareVal _ _ _ hk2 _ _ => rw [hk2] at hk; simp at hk
  | bareDash tok next rest hk hd _ ih =>
    intro h2
    cases h2 with
    | here _ hn => rw [hk] at hn; cases hn
    | inline _ _ hk2 _ => rw [hk2] at hk; simp at hk
    | bareDash _ _ _ _ _ hr => exact ih hr
    | bareVal _ _ _ _ hd2 _ => exact absurd hd hd2
  | bareVal tok next rest hk hd _ ih =>
    intro h2
    cases h2 with
    | here _ hn => rw [hk] at hn; cases hn
    | inline _ _ hk2 _ => rw [hk2] at hk; simp at hk
    | bareDash _ _ _ _ hd2 _ => exact absurd hd2 hd
    | bareVal _ _ _ _ _ hr => exact ih hr

theorem errorsAt_mem_none {known : List CStr} {bad : CStr} :
    ∀ {l : List CStr}, ErrorsAt known bad l →
      bad ∈ l ∧ firstKnownMatch known bad = none := by
  intro l h
  induction h with
  | here rest hn => exact ⟨List.mem_cons_self bad rest, hn⟩
  | inline _ _ _ _ ih => exact ⟨List.mem_cons_of_mem _ ih.1, ih.2⟩
  | bareDash _ _ _ _ _ _ ih => exact ⟨List.mem_cons_of_mem _ ih.1, ih.2⟩
  | bareVal _ _ _ _ _ _ ih =>
    exact ⟨List.mem_cons_of_mem _ (List.mem_cons_of_mem _ ih.1), ih.2⟩

theorem checkAux_error_iff (known : List CStr) (mode : Option CStr) :
    ∀ (l : List CStr) (e : ArgError), checkAux known mode l = .error e ↔
      ∃ tok, ErrorsAt known tok (l.takeWhile nonBoundary) ∧
        e = .UnrecognizedArgument tok mode known
  | [], e => by
    simp only [List.takeWhile_nil]
    constructor
    · intro h
      cases h
    · rintro ⟨tok, ht, _⟩
      exact absurd ht errorsAt_nil
  | [tok], e => by
    by_cases hb : tok = dashDash
    · subst hb
      rw [checkAux_cons_dashDash, List.takeWhile_cons_of_neg (by simp [nonBoundary])]
      constructor
      · intro h
        cases h
      · rintro ⟨t, ht, _⟩
        exact absurd ht errorsAt_nil
    · rw [List.takeWhile_cons_of_pos ((nonBoundary_eq_true_iff tok).mpr hb),
        List.takeWhile_nil]
      rcases hf : firstKnownMatch known tok with _ | b
      · rw [checkAux_singleton_err known mode tok hb hf]
        constructor
        · intro h
          cases h
          exact ⟨tok, ErrorsAt.here [] hf, rfl⟩
        · rintro ⟨t, ht, he⟩
          rw [(errorsAt_cons_of_none_iff hf).mp ht] at he
          rw [he]
      · rw [checkAux_singleton_ok known mode tok b hb hf]
        constructor
        · intro h
          cases h
        · rintro ⟨t, ht, _⟩
          cases b
          · exact absurd ((errorsAt_cons_inline_iff hf).mp ht) errorsAt_nil
          · exact absurd ht (errorsAt_cons_bare_singleton hf)
  | tok :: next :: rest2, e => by
    by_cases hb : tok = dashDash
    · subst hb
      rw [checkAux_cons_dashDash, List.takeWhile_cons_of_neg (by simp [nonBoundary])]
      constructor
      · intro h
        cases h
      · rintro ⟨t, ht, _⟩
        exact absurd ht errorsAt_nil
    · rw [List.takeWhile_cons_of_pos ((nonBoundary_eq_true_iff tok).mpr hb)]
      rcases hf : firstKnownMatch known tok with _ | b
      · rw [checkAux_cons2_err known mode tok next rest2 hb hf]
        constructor
        · intro h
          cases h
          exact ⟨tok, ErrorsAt.here _ hf, rfl⟩
        · rintro ⟨t, ht, he⟩
          rw [(errorsAt_cons_of_none_iff hf).mp ht] at he
          rw [he]
      · cases b
        · rw [checkAux_cons2_inline known mode tok next rest2 hb hf,
            checkAux_error_iff known mode (next :: rest2) e]
          constructor
          · rintro ⟨t, ht, he⟩
            exact ⟨t, (errorsAt_cons_inline_iff hf).mpr ht, he⟩
          · rintro ⟨t, ht, he⟩
            exact ⟨t, (errorsAt_cons_inline_iff hf).mp ht, he⟩
        · by_cases hd : next.head? = some '-'
          · by_cases hnd : next = dashDash
            · subst hnd
              rw [checkAux_cons2_bare_dash known mode tok _ rest2 hb hf hd,
                checkAux_cons_dashDash,
                List.takeWhile_cons_of_neg (by simp [nonBoundary])]
              constructor
              · intro h
                cases h
              · rintro ⟨t, ht, _⟩
                exact absurd ht (errorsAt_cons_bare_singleton hf)
            · rw [checkAux_cons2_bare_dash known mode tok next rest2 hb hf hd,
                checkAux_error_iff known mode (next :: rest2) e,
                List.takeWhile_cons_of_pos ((nonBoundary_eq_true_iff next).mpr hnd)]
              constructor
              · rintro ⟨t, ht, he⟩
                exact ⟨t, (errorsAt_cons_bareDash_iff hf hd).mpr ht, he⟩
              · rintro ⟨t, ht, he⟩
                exact ⟨t, (errorsAt_cons_bareDash_iff hf hd).mp ht, he⟩
          · have hnd : next ≠ dashDash := fun he2 => hd (by rw [he2]; rfl)
            rw [checkAux_cons2_bare_val known mode tok next rest2 hb hf hd,
              checkAux_error_iff known mode rest2 e,
              List.takeWhile_cons_of_pos ((nonBoundary_eq_true_iff next).mpr hnd)]
            constructor
            · rintro ⟨t, ht, he⟩
              exact ⟨t, (errorsAt_cons_bareVal_iff hf hd).mpr ht, he⟩
            · rintro ⟨t, ht, he⟩
              exact ⟨t, (errorsAt_cons_bareVal_iff hf hd).mp ht, he⟩

/-- C4: check_for_unknown_arguments returns normally exactly when the tokens
at indices `[1, boundary)` decompose into validated units (ValidArgs): every
token either matches a known name exactly, matches `known_name=value`, or is
the token immediately after a bare-matched known flag and does not begin with
`'-'` (in which case it is consumed as that flag's value and never itself
validated); which of the bare or inline routes applies is decided by the
first known name matching the token, as in the checker's inner loop.
Otherwise the call fails with UnrecognizedArgument whose payload (what the
fatal diagnostic prints before the process exits) holds exactly the first
token at which the left-to-right scan fails (ErrorsAt: every earlier token
was consumed into a validated unit, so a consumed value token is never the
one reported), together with the optional mode label and the full known-name
list; that token is uniquely determined (fourth conjunct), lies before the
boundary and matches no known name (third conjunct) - equivalently, by the
last conjunct, `matchTok k tok = false` for every known name `k`. -/
theorem check_for_unknown_arguments_spec (known : List CStr) (mode : Option CStr)
    (argv : List CStr) :
    (check_for_unknown_arguments known mode argv = .ok () ↔
      ValidArgs known (flagRegion argv))
    ∧ (∀ e, check_for_unknown_arguments known mode argv = .error e ↔
        ∃ tok, ErrorsAt known tok (flagRegion argv) ∧
          e = .UnrecognizedArgument tok mode known)
    ∧ (∀ tok, ErrorsAt known tok (flagRegion argv) →
        tok ∈ flagRegion argv ∧ firstKnownMatch known tok = none)
    ∧ (∀ t1 t2, ErrorsAt known t1 (flagRegion argv) →
        ErrorsAt known t2 (flagRegion argv) → t1 = t2)
    ∧ (∀ tok, firstKnownMatch known tok = none ↔ ∀ k ∈ known, matchTok k tok = false) :=
  ⟨checkAux_ok_iff known mode (argv.drop 1),
   fun e => checkAux_error_iff known mode (argv.drop 1) e,
   fun _ ht => errorsAt_mem_none ht,
   fun _ _ h1 h2 => errorsAt_unique h1 h2,
   fun tok => firstKnownMatch_none_iff known tok⟩

theorem check_for_unknown_arguments_spec_witness :
    check_for_unknown_arguments ["--flag".data] none ["prog".data, "--flag=3".data] =
      .ok () ∧
    check_for_unknown_arguments ["--flag".data] none ["prog".data, "--other".data] =
      .error (.UnrecognizedArgument "--other".data none ["--flag".data]) ∧
    check_for_unknown_arguments ["--flag".data] none
        ["prog".data, "--flag".data, "word".data, "--bad".data] =
      .error (.UnrecognizedArgument "--bad".data none ["--flag".data]) :=
  ⟨(check_for_unknown_arguments_spec ["--flag".data] none
      ["prog".data, "--flag=3".data]).1.mpr
    (ValidArgs.inline "--flag=3".data [] (by decide) ValidArgs.nil),
   ((check_for_unknown_arguments_spec ["--flag".data] none
      ["prog".data, "--other".data]).2.1
     (.UnrecognizedArgument "--other".data none ["--flag".data])).mpr
    ⟨"--other".data, ErrorsAt.here [] (by decide), rfl⟩,
   ((check_for_unknown_arguments_spec ["--flag".data] none
      ["prog".data, "--flag".data, "word".data, "--bad".data]).2.1
     (.UnrecognizedArgument "--bad".data none ["--flag".data])).mpr
    ⟨"--bad".data, ErrorsAt.bareVal "--flag".data "word".data ["--bad".data]
      (by decide) (by decide) (ErrorsAt.here [] (by decide)), rfl⟩⟩
